import Mathlib

/-!
Verification of the RadiaCode protocol client (radiacode/radiacode.py).

Bytes are modelled as `Nat` values (< 256 on the wire); byte strings as
`List Nat`. Python floats are modelled as exact rationals (`ℚ`). Fallible
Python code (assertions, struct errors, exceptions) is modelled with
`Except` / `Option`. The `BytesBuffer` class and the `VSFR` register
enumeration live in repository files outside `src/` (bytes_buffer.py,
types.py); they are modelled from the specification where needed.
-/

set_option autoImplicit false

namespace Radiacode

/-- Little-endian 4-byte encoding of a 32-bit value, as produced by
Python struct.pack with format <I (value taken modulo 2^32). -/
def u32le (n : Nat) : List Nat :=
  [n % 256, (n / 256) % 256, (n / 65536) % 256, (n / 16777216) % 256]

/-- Little-endian value of a byte list, as decoded by struct.unpack. -/
def leVal : List Nat → Nat
  | [] => 0
  | b :: bs => b + 256 * leVal bs

theorem u32le_length (n : Nat) : (u32le n).length = 4 := rfl

theorem leVal_u32le (n : Nat) (h : n < 4294967296) : leVal (u32le n) = n := by
  simp only [u32le, leVal]
  omega

/-- Errors of the protocol layer, named after the specification taxonomy
in section 7; in the Python source they are assert failures and
exceptions. -/
inductive RcError
  | underflow
  | protocolMismatch
  | deviceRejected
  | lengthMismatch
  | assertionFailed
  deriving DecidableEq

/-! ## Claim C7: channel-to-energy conversion (radiacode.py lines 15-28)

Python floats are modelled as exact rationals; the channel number is an
integer as in the source signature. -/

/-- Translation of spectrum_channel_to_energy: a0 + a1 * channel +
a2 * channel * channel, exactly the expression on line 28. -/
def spectrum_channel_to_energy (channel_number : ℤ) (a0 a1 a2 : ℚ) : ℚ :=
  a0 + a1 * (channel_number : ℚ) + a2 * (channel_number : ℚ) * (channel_number : ℚ)

/-- Claim C7: for every calibration triple, spectrum_channel_to_energy at
channel 0 returns a0; the function is the pure evaluation of the quadratic
a0 + a1 * channel + a2 * channel^2. -/
theorem spectrum_channel_to_energy_at_zero (a0 a1 a2 : ℚ) :
    spectrum_channel_to_energy 0 a0 a1 a2 = a0 := by
  simp [spectrum_channel_to_energy]

/-! ## Claim C1: firmware-version policy (radiacode.py lines 74-79)

The source condition is
  if ignore_firmware_compatibility_check is False and vmaj < 4 or (vmaj == 4 and vmin < 8):
Python gives `and` tighter precedence than `or`, so this parses as
  ((ignore is False) and (vmaj < 4)) or ((vmaj == 4) and (vmin < 8)). -/

/-- Translation of the raise condition on line 76, with Python operator
precedence applied. `vmaj`, `vmin` are the target firmware major/minor
version numbers (u16 values from fw_version). -/
def fwCheckRaises (ignoreCheck : Bool) (vmaj vmin : Nat) : Bool :=
  (decide (ignoreCheck = false) && decide (vmaj < 4)) ||
    (decide (vmaj = 4) && decide (vmin < 8))

/-- Modelled from the spec: the firmware policy as claimed — when the
check is advisory-only (flag set) no version error is raised; when
enforced, it raises precisely when the target version is below 4.8. -/
def specFwRaises (ignoreCheck : Bool) (vmaj vmin : Nat) : Bool :=
  !ignoreCheck && (decide (vmaj < 4) || (decide (vmaj = 4) && decide (vmin < 8)))

/-- Claim C1 (code bug): with the advisory flag set and reported target
version 4.7, the code still raises the firmware-version error, while the
claimed (and documented) behaviour raises nothing; in enforced mode the
code and the claim agree for every version. -/
theorem fwCheck_contradicts_advisory_flag :
    fwCheckRaises true 4 7 = true ∧ specFwRaises true 4 7 = false ∧
      (∀ vmaj vmin : Nat, fwCheckRaises false vmaj vmin = specFwRaises false vmaj vmin) := by
  refine ⟨rfl, rfl, ?_⟩
  intro vmaj vmin
  simp [fwCheckRaises, specFwRaises]

/-! ## Claim C8: set_vibro_on and set_sound_on (radiacode.py lines 387-403)

The VSFR register enumeration is defined in radiacode/types.py, which is
outside src/; the registers used by the facade are modelled symbolically
(the claim is about which register is written, not its numeric code). -/

/-- Modelled from the spec: the fixed 32-bit setting registers named in
the source (types.py is not part of src/); constructors are the VSFR
members the facade methods reference. -/
inductive VSFR
  | DEVICE_TIME
  | DOSE_RESET
  | DEVICE_ON
  | DEVICE_LANG
  | SOUND_ON
  | SOUND_CTRL
  | DISP_OFF_TIME
  | DISP_BRT
  | DISP_DIR
  | VIBRO_CTRL
  deriving DecidableEq

/-- A register write issued through write_request: the target register and
the data bytes sent with it. -/
structure RegWrite where
  reg : VSFR
  data : List Nat
  deriving DecidableEq

/-- Python bool converted to an integer, as struct.pack of bool(on). -/
def pyBoolToNat (b : Bool) : Nat := if b then 1 else 0

/-- Translation of set_sound_on (line 394): write_request(VSFR.SOUND_ON,
struct.pack of bool(on) as u32). -/
def set_sound_on (b : Bool) : RegWrite :=
  ⟨VSFR.SOUND_ON, u32le (pyBoolToNat b)⟩

/-- Translation of set_vibro_on (line 403): write_request(VSFR.SOUND_ON,
struct.pack of bool(on) as u32) — the source writes SOUND_ON here too. -/
def set_vibro_on (b : Bool) : RegWrite :=
  ⟨VSFR.SOUND_ON, u32le (pyBoolToNat b)⟩

/-- Claim C8: for every boolean argument, set_vibro_on issues exactly the
register write that set_sound_on issues — to the SOUND_ON register with
value int(on) — and not to the vibration register. -/
theorem set_vibro_on_writes_sound_register (b : Bool) :
    set_vibro_on b = set_sound_on b ∧
      (set_vibro_on b).reg = VSFR.SOUND_ON ∧
      (set_vibro_on b).reg ≠ VSFR.VIBRO_CTRL ∧
      (set_vibro_on b).data = u32le (pyBoolToNat b) := by
  refine ⟨rfl, rfl, ?_, rfl⟩
  simp [set_vibro_on]

/-! ## Binary cursor buffer and request/response framer -/

/-- Modelled from the spec: the BytesBuffer class of bytes_buffer.py,
which is outside src/ — a byte sequence with a read cursor; section 4.1 of
the spec. The source field names are kept: `data` is the underlying byte
string, `pos` the cursor. -/
structure BytesBuffer where
  data : List Nat
  pos : Nat
  deriving DecidableEq

/-- Modelled from the spec: size() reports the bytes left unread. -/
def BytesBuffer.size (b : BytesBuffer) : Nat := b.data.length - b.pos

/-- Modelled from the spec: data() returns the bytes left unread. -/
def BytesBuffer.remainingData (b : BytesBuffer) : List Nat := b.data.drop b.pos

/-- Modelled from the spec: unpack of `n` raw bytes — advance the cursor
by exactly the consumed width, fail (UnderflowError) if insufficient
bytes remain. -/
def BytesBuffer.unpackBytes (b : BytesBuffer) (n : Nat) : Option (List Nat × BytesBuffer) :=
  if b.pos + n ≤ b.data.length then
    some ((b.data.drop b.pos).take n, ⟨b.data, b.pos + n⟩)
  else none

/-- unpack with format <I: one little-endian u32. -/
def BytesBuffer.unpackU32 (b : BytesBuffer) : Option (Nat × BytesBuffer) :=
  (b.unpackBytes 4).map fun p => (leVal p.1, p.2)

/-- unpack with format <II: two little-endian u32 values read in one
8-byte access. -/
def BytesBuffer.unpackU32x2 (b : BytesBuffer) : Option ((Nat × Nat) × BytesBuffer) :=
  (b.unpackBytes 8).map fun p => ((leVal (p.1.take 4), leVal (p.1.drop 4)), p.2)

/-- Sequence byte req_seq_no = 0x80 + seq (radiacode.py line 111). -/
def reqSeqNo (seq : Nat) : Nat := 128 + seq

/-- Counter advance seq = (seq + 1) % 32 (radiacode.py line 112). -/
def nextSeq (seq : Nat) : Nat := (seq + 1) % 32

/-- req_header = reqtype + 0x00 + pack of req_seq_no (line 115). -/
def reqHeader (reqtype : List Nat) (seq : Nat) : List Nat :=
  reqtype ++ [0] ++ [reqSeqNo seq]

/-- full_request = pack of len(request) as u32 + request, where request =
req_header + args (lines 116-117). -/
def fullRequest (reqtype args : List Nat) (seq : Nat) : List Nat :=
  u32le (reqHeader reqtype seq ++ args).length ++ (reqHeader reqtype seq ++ args)

/-- Translation of RadiaCode.execute (lines 97-125). The transport
(self._connection.execute) is a parameter mapping the sent bytes to the
full response buffer. Returns the result together with the sequence
counter the object holds afterwards: the counter is advanced on line 112
before the request is sent, so it advances even when a later check
fails; only the initial assert on the opcode length (line 109) leaves it
unchanged. The struct.pack range check for format <B models line 115. -/
def execute (transport : List Nat → List Nat) (reqtype args : List Nat) (seq : Nat) :
    Except RcError BytesBuffer × Nat :=
  if reqtype.length ≠ 2 then (Except.error RcError.assertionFailed, seq)
  else if 256 ≤ reqSeqNo seq then (Except.error RcError.assertionFailed, nextSeq seq)
  else
    match (BytesBuffer.mk (transport (fullRequest reqtype args seq)) 0).unpackBytes 4 with
    | none => (Except.error RcError.underflow, nextSeq seq)
    | some (respHeader, rest) =>
      if respHeader = reqHeader reqtype seq then (Except.ok rest, nextSeq seq)
      else (Except.error RcError.protocolMismatch, nextSeq seq)

/-- The sequence counter starts at 0 (self._seq = 0, line 61). -/
def initSeq : Nat := 0

/-- The counter after n calls to execute within one session. -/
def seqAfterCalls : Nat → Nat
  | 0 => initSeq
  | n + 1 => nextSeq (seqAfterCalls n)

/-- Claim C4: the byte string handed to the transport is exactly the
4-byte little-endian length of header ++ payload (the prefix itself not
counted), then the 2-byte opcode, the 0x00 reserved byte, the byte
0x80 | seq, then the payload. -/
theorem execute_wire_format (reqtype args : List Nat) (seq : Nat)
    (h2 : reqtype.length = 2) (hs : seq < 32) :
    fullRequest reqtype args seq =
      u32le (4 + args.length) ++ reqtype ++ [0x00] ++ [0x80 ||| seq] ++ args := by
  have hseq : reqSeqNo seq = 0x80 ||| seq := by
    have h128 : ∀ s : Nat, s < 32 → 128 + s = 128 ||| s := by decide
    simpa [reqSeqNo] using h128 seq hs
  have hlen : (reqHeader reqtype seq ++ args).length = 4 + args.length := by
    simp [reqHeader, h2]
    omega
  rw [fullRequest, hlen, reqHeader, hseq]
  simp [List.append_assoc]

/-- Witness for C4 at a concrete opcode, payload and counter value. -/
theorem execute_wire_format_witness :
    fullRequest [0x26, 0x08] [1, 2] 3 =
      u32le (4 + [1, 2].length) ++ [0x26, 0x08] ++ [0x00] ++ [0x80 ||| 3] ++ [1, 2] :=
  execute_wire_format [0x26, 0x08] [1, 2] 3 rfl (by decide)

/-- Claim C5: the session counter invariant 0 ≤ seq < 32 — it starts at
0, execute advances it by exactly one modulo 32 whenever a request is
framed, it stays below 32 after any number of calls, and the request is
tagged with 0x80 | seq. -/
theorem seq_counter_invariant :
    initSeq < 32 ∧
      (∀ s : Nat, s < 32 → nextSeq s < 32) ∧
      (∀ n : Nat, seqAfterCalls n < 32) ∧
      (∀ n : Nat, seqAfterCalls (n + 1) = (seqAfterCalls n + 1) % 32) ∧
      (∀ (t : List Nat → List Nat) (reqtype args : List Nat) (s : Nat),
        reqtype.length = 2 → (execute t reqtype args s).2 = nextSeq s) ∧
      (∀ s : Nat, s < 32 → reqSeqNo s = 0x80 ||| s) := by
  have hnext : ∀ s : Nat, nextSeq s < 32 := fun s => Nat.mod_lt _ (by norm_num)
  refine ⟨by decide, fun s _ => hnext s, ?_, fun n => rfl, ?_, ?_⟩
  · intro n
    induction n with
    | zero => decide
    | succ n _ => exact hnext _
  · intro t reqtype args s h2
    unfold execute
    rw [if_neg (by simp [h2])]
    split
    · rfl
    · split
      · rfl
      · split <;> rfl
  · intro s hs
    have h128 : ∀ s : Nat, s < 32 → 128 + s = 128 ||| s := by decide
    simpa [reqSeqNo] using h128 s hs

/-- Witness for C5 at concrete counter values and a concrete call. -/
theorem seq_counter_invariant_witness :
    nextSeq 31 < 32 ∧
      (execute (fun _ => []) [6, 7] [] 3).2 = nextSeq 3 ∧
      reqSeqNo 5 = 0x80 ||| 5 :=
  ⟨seq_counter_invariant.2.1 31 (by decide),
    seq_counter_invariant.2.2.2.2.1 (fun _ => []) [6, 7] [] 3 rfl,
    seq_counter_invariant.2.2.2.2.2 5 (by decide)⟩

/-- Claim C2: whenever the response holds at least the 4 echoed header
bytes, execute fails with ProtocolMismatchError exactly when those bytes
differ from the sent header, and otherwise returns the remaining bytes
as a cursor buffer positioned past the header. -/
theorem execute_echo_header_check
    (t : List Nat → List Nat) (reqtype args : List Nat) (seq : Nat)
    (h2 : reqtype.length = 2) (hs : seq < 32)
    (hlen : 4 ≤ (t (fullRequest reqtype args seq)).length) :
    ((t (fullRequest reqtype args seq)).take 4 ≠ reqHeader reqtype seq →
        execute t reqtype args seq =
          (Except.error RcError.protocolMismatch, nextSeq seq)) ∧
      ((t (fullRequest reqtype args seq)).take 4 = reqHeader reqtype seq →
        execute t reqtype args seq =
          (Except.ok (BytesBuffer.mk (t (fullRequest reqtype args seq)) 4), nextSeq seq)) := by
  have hno : ¬ 256 ≤ reqSeqNo seq := by
    simp only [reqSeqNo]
    omega
  have hunpack : (BytesBuffer.mk (t (fullRequest reqtype args seq)) 0).unpackBytes 4 =
      some ((t (fullRequest reqtype args seq)).take 4,
        BytesBuffer.mk (t (fullRequest reqtype args seq)) 4) := by
    simp [BytesBuffer.unpackBytes, hlen]
  constructor
  · intro hne
    simp [execute, h2, hno, hunpack, hne]
  · intro heq
    simp [execute, h2, hno, hunpack, heq]

/-- Witness for C2: a concrete response whose echoed header differs from
the sent header [0x06, 0x07, 0x00, 0x80] makes execute fail with
ProtocolMismatchError. -/
theorem execute_echo_header_check_witness :
    execute (fun _ => [0, 0, 0, 0, 9]) [6, 7] [] 0 =
      (Except.error RcError.protocolMismatch, nextSeq 0) :=
  (execute_echo_header_check (fun _ => [0, 0, 0, 0, 9]) [6, 7] [] 0 rfl (by decide)
    (by decide)).1 (by decide)

/-! ## Register read (read_request) -/

/-- Translation of RadiaCode.read_request (lines 127-145): execute with
the read opcode 0x26 0x08 and the register id as u32; decode retcode and
declared length flen; assert retcode = 1; if size() = flen + 1 and the
final byte of the underlying data is 0x00, drop that byte (the firmware
workaround); then assert size() = flen. -/
def read_request (transport : List Nat → List Nat) (command_id seq : Nat) :
    Except RcError BytesBuffer × Nat :=
  match execute transport [0x26, 0x08] (u32le command_id) seq with
  | (Except.error e, s) => (Except.error e, s)
  | (Except.ok r, s) =>
    match r.unpackU32x2 with
    | none => (Except.error RcError.underflow, s)
    | some ((retcode, flen), r) =>
      if retcode ≠ 1 then (Except.error RcError.deviceRejected, s)
      else
        let r2 : BytesBuffer :=
          if r.size = flen + 1 ∧ r.data.getLast? = some 0 then
            ⟨r.data.dropLast, r.pos⟩
          else r
        if r2.size = flen then (Except.ok r2, s)
        else (Except.error RcError.lengthMismatch, s)

/-- Helper: execute succeeds and returns the cursor past the header when
the transport echoes the sent header. -/
theorem execute_ok_of_echo (t : List Nat → List Nat) (reqtype args : List Nat) (seq : Nat)
    (rest : List Nat) (h2 : reqtype.length = 2) (hs : seq < 32)
    (ht : t (fullRequest reqtype args seq) = reqHeader reqtype seq ++ rest) :
    execute t reqtype args seq =
      (Except.ok (BytesBuffer.mk (reqHeader reqtype seq ++ rest) 4), nextSeq seq) := by
  have hno : ¬ 256 ≤ reqSeqNo seq := by
    simp only [reqSeqNo]
    omega
  have hhdr : (reqHeader reqtype seq).length = 4 := by
    simp [reqHeader, h2]
  have htake : (reqHeader reqtype seq ++ rest).take 4 = reqHeader reqtype seq :=
    List.take_left' hhdr
  have hcond : (0 : Nat) + 4 ≤ (reqHeader reqtype seq ++ rest).length := by
    rw [List.length_append, hhdr]
    omega
  have hunpack : (BytesBuffer.mk (reqHeader reqtype seq ++ rest) 0).unpackBytes 4 =
      some (reqHeader reqtype seq, BytesBuffer.mk (reqHeader reqtype seq ++ rest) 4) := by
    simp only [BytesBuffer.unpackBytes, if_pos hcond]
    simp [htake]
  simp [execute, h2, hno, ht, hunpack]

/-- Helper: unpack of a nonempty known middle segment at the current
cursor position. -/
theorem unpackBytes_of_drop (b : BytesBuffer) (mid post : List Nat)
    (hdrop : b.data.drop b.pos = mid ++ post) (hm : mid.length ≠ 0) :
    b.unpackBytes mid.length = some (mid, ⟨b.data, b.pos + mid.length⟩) := by
  have h1 : (b.data.drop b.pos).length = b.data.length - b.pos := List.length_drop _ _
  rw [hdrop, List.length_append] at h1
  have hle : b.pos + mid.length ≤ b.data.length := by omega
  have htake : (b.data.drop b.pos).take mid.length = mid := by
    rw [hdrop]
    exact List.take_left mid post
  simp [BytesBuffer.unpackBytes, hle, htake]

/-- The wire shape of a register-read response with return code 1 and
declared length L (spec section 6): echoed header, u32 retcode 1, u32
declared length, then the payload bytes. -/
def readResponse (seq L : Nat) (payload : List Nat) : List Nat :=
  reqHeader [0x26, 0x08] seq ++ (u32le 1 ++ (u32le L ++ payload))

/-- Claim C3: for a register read whose response carries return code 1
and declared length L: an actual payload of length L + 1 ending in 0x00
is trimmed and the read succeeds with an L-byte payload; an actual
payload of length L + 1 not ending in 0x00, or of any other length
different from L, raises LengthMismatchError. -/
theorem read_request_trailing_zero_tolerance
    (t : List Nat → List Nat) (cid seq L : Nat) (payload : List Nat)
    (hL : L < 4294967296) (hs : seq < 32)
    (ht : t (fullRequest [0x26, 0x08] (u32le cid) seq) = readResponse seq L payload) :
    (payload.length = L + 1 ∧ payload.getLast? = some 0 →
        read_request t cid seq =
          (Except.ok (BytesBuffer.mk (readResponse seq L payload.dropLast) 12), nextSeq seq) ∧
        (BytesBuffer.mk (readResponse seq L payload.dropLast) 12).remainingData =
          payload.dropLast ∧
        (BytesBuffer.mk (readResponse seq L payload.dropLast) 12).size = L) ∧
      (payload.length = L + 1 ∧ payload.getLast? ≠ some 0 →
        read_request t cid seq = (Except.error RcError.lengthMismatch, nextSeq seq)) ∧
      (payload.length ≠ L ∧ payload.length ≠ L + 1 →
        read_request t cid seq = (Except.error RcError.lengthMismatch, nextSeq seq)) := by
  have hexec := execute_ok_of_echo t [0x26, 0x08] (u32le cid) seq
    (u32le 1 ++ (u32le L ++ payload)) rfl hs ht
  have hhdr : (reqHeader [0x26, 0x08] seq).length = 4 := rfl
  have hdrop4 : (readResponse seq L payload).drop 4 = (u32le 1 ++ u32le L) ++ payload := by
    rw [readResponse, List.drop_left' hhdr, List.append_assoc]
  have h8 : (u32le 1 ++ u32le L).length = 8 := by
    simp [u32le]
  have hofdrop := unpackBytes_of_drop (BytesBuffer.mk (readResponse seq L payload) 4)
    (u32le 1 ++ u32le L) payload hdrop4 (by simp [h8])
  rw [h8] at hofdrop
  have hmid1 : (u32le 1 ++ u32le L).take 4 = u32le 1 := List.take_left' rfl
  have hmid2 : (u32le 1 ++ u32le L).drop 4 = u32le L := List.drop_left' rfl
  have hunp : (BytesBuffer.mk (readResponse seq L payload) 4).unpackU32x2 =
      some ((1, L), BytesBuffer.mk (readResponse seq L payload) 12) := by
    rw [BytesBuffer.unpackU32x2, hofdrop]
    simp [hmid1, hmid2, leVal_u32le L hL, leVal_u32le 1 (by norm_num)]
  have hrlen : (readResponse seq L payload).length = 12 + payload.length := by
    simp [readResponse, reqHeader, u32le]
    omega
  have hsize : (BytesBuffer.mk (readResponse seq L payload) 12).size = payload.length := by
    simp [BytesBuffer.size, hrlen]
  have hred : read_request t cid seq =
      (if (BytesBuffer.mk (readResponse seq L payload) 12).size = L + 1 ∧
          (readResponse seq L payload).getLast? = some 0 then
        (if (BytesBuffer.mk (readResponse seq L payload).dropLast 12).size = L then
          (Except.ok (BytesBuffer.mk (readResponse seq L payload).dropLast 12), nextSeq seq)
        else (Except.error RcError.lengthMismatch, nextSeq seq))
      else
        (if (BytesBuffer.mk (readResponse seq L payload) 12).size = L then
          (Except.ok (BytesBuffer.mk (readResponse seq L payload) 12), nextSeq seq)
        else (Except.error RcError.lengthMismatch, nextSeq seq))) := by
    rw [read_request]
    have hexec2 : execute t [0x26, 0x08] (u32le cid) seq =
        (Except.ok (BytesBuffer.mk (readResponse seq L payload) 4), nextSeq seq) := hexec
    rw [hexec2]
    simp only [hunp]
    by_cases hc : (BytesBuffer.mk (readResponse seq L payload) 12).size = L + 1 ∧
        (readResponse seq L payload).getLast? = some 0
    · simp [hc]
    · simp [hc]
  refine ⟨?_, ?_, ?_⟩
  · rintro ⟨hplen, hlast⟩
    have hpne : payload ≠ [] := by
      intro h
      rw [h] at hplen
      simp at hplen
    have hglast : (readResponse seq L payload).getLast? = some 0 := by
      rw [readResponse, List.getLast?_append_of_ne_nil _ (by simp [u32le]),
        List.getLast?_append_of_ne_nil _ (by simp [u32le]),
        List.getLast?_append_of_ne_nil _ hpne]
      exact hlast
    have hdropLast : (readResponse seq L payload).dropLast =
        readResponse seq L payload.dropLast := by
      rw [readResponse, readResponse,
        List.dropLast_append_of_ne_nil _ (by simp [u32le]),
        List.dropLast_append_of_ne_nil _ (by simp [u32le]),
        List.dropLast_append_of_ne_nil _ hpne]
    have hdllen : payload.dropLast.length = L := by
      rw [List.length_dropLast, hplen]
      omega
    have hszdl : (BytesBuffer.mk (readResponse seq L payload).dropLast 12).size = L := by
      rw [hdropLast]
      have hl2 : (readResponse seq L payload.dropLast).length = 12 + L := by
        simp [readResponse, reqHeader, u32le, hdllen]
        omega
      simp [BytesBuffer.size, hl2]
    refine ⟨?_, ?_, ?_⟩
    · rw [hred, if_pos ⟨hsize.trans hplen, hglast⟩, if_pos hszdl, hdropLast]
    · show (readResponse seq L payload.dropLast).drop 12 = payload.dropLast
      have h12 : (reqHeader [0x26, 0x08] seq ++ (u32le 1 ++ u32le L)).length = 12 := by
        simp [reqHeader, u32le]
      calc (readResponse seq L payload.dropLast).drop 12
          = ((reqHeader [0x26, 0x08] seq ++ (u32le 1 ++ u32le L)) ++
            payload.dropLast).drop 12 := by
            rw [readResponse]
            simp [List.append_assoc]
        _ = payload.dropLast := List.drop_left' h12
    · rw [← hdropLast]
      exact hszdl
  · rintro ⟨hplen, hlast⟩
    have hpne : payload ≠ [] := by
      intro h
      rw [h] at hplen
      simp at hplen
    have hglast : (readResponse seq L payload).getLast? = payload.getLast? := by
      rw [readResponse, List.getLast?_append_of_ne_nil _ (by simp [u32le]),
        List.getLast?_append_of_ne_nil _ (by simp [u32le]),
        List.getLast?_append_of_ne_nil _ hpne]
    rw [hred, if_neg ?hc1, if_neg ?hc2]
    case hc1 =>
      rintro ⟨-, hg⟩
      rw [hglast] at hg
      exact hlast hg
    case hc2 =>
      rw [hsize, hplen]
      omega
  · rintro ⟨hne1, hne2⟩
    rw [hred, if_neg ?hd1, if_neg ?hd2]
    case hd1 =>
      rintro ⟨hg, -⟩
      rw [hsize] at hg
      exact hne2 hg
    case hd2 =>
      rw [hsize]
      exact hne1

/-- Witness for C3: a concrete read with declared length 2 and a 3-byte
payload ending in 0x00 succeeds with the 2-byte payload [7, 8]. -/
theorem read_request_trailing_zero_tolerance_witness :
    read_request (fun _ => readResponse 0 2 [7, 8, 0]) 5 0 =
      (Except.ok (BytesBuffer.mk (readResponse 0 2 [7, 8]) 12), nextSeq 0) ∧
      (BytesBuffer.mk (readResponse 0 2 [7, 8]) 12).remainingData = [7, 8] ∧
      (BytesBuffer.mk (readResponse 0 2 [7, 8]) 12).size = 2 := by
  have h := (read_request_trailing_zero_tolerance
    (fun _ => readResponse 0 2 [7, 8, 0]) 5 0 2 [7, 8, 0]
    (by norm_num) (by norm_num) rfl).1 (by exact ⟨rfl, rfl⟩)
  simpa using h

/-! ## Batch register read (batch_read_vsfrs) -/

/-- Sequential unpack of k little-endian u32 values: the list
comprehension on line 175, one unpack with format <I per requested id. -/
def unpackU32s : Nat → BytesBuffer → Option (List Nat × BytesBuffer)
  | 0, b => some ([], b)
  | k + 1, b =>
    (b.unpackU32).bind fun p =>
      (unpackU32s k p.2).map fun q => (p.1 :: q.1, q.2)

/-- Translation of RadiaCode.batch_read_vsfrs (lines 163-177): assert the
id list is non-empty, execute with the batch-read opcode 0x2a 0x08 and
all ids packed as consecutive u32 values, unpack one u32 per id, then
assert the response is exactly exhausted. -/
def batch_read_vsfrs (transport : List Nat → List Nat) (vsfr_ids : List Nat) (seq : Nat) :
    Except RcError (List Nat) × Nat :=
  if vsfr_ids.length = 0 then (Except.error RcError.assertionFailed, seq)
  else
    match execute transport [0x2a, 0x08] ((vsfr_ids.map u32le).flatten) seq with
    | (Except.error e, s) => (Except.error e, s)
    | (Except.ok r, s) =>
      match unpackU32s vsfr_ids.length r with
      | none => (Except.error RcError.underflow, s)
      | some (ret, r2) =>
        if r2.size = 0 then (Except.ok ret, s)
        else (Except.error RcError.assertionFailed, s)

/-- Helper: the packed id block is 4 bytes per id. -/
theorem flatten_map_u32le_length (vals : List Nat) :
    ((vals.map u32le).flatten).length = 4 * vals.length := by
  induction vals with
  | nil => simp
  | cons v vs ih =>
    simp [u32le, ih]
    omega

/-- Helper: inversion of a single u32 unpack. -/
theorem unpackU32_some (b bmid : BytesBuffer) (v : Nat)
    (hu : b.unpackU32 = some (v, bmid)) :
    bmid.data = b.data ∧ bmid.pos = b.pos + 4 ∧ b.pos + 4 ≤ b.data.length := by
  rw [BytesBuffer.unpackU32, BytesBuffer.unpackBytes] at hu
  by_cases hc : b.pos + 4 ≤ b.data.length
  · rw [if_pos hc] at hu
    simp at hu
    obtain ⟨-, hm⟩ := hu
    rw [← hm]
    exact ⟨rfl, rfl, hc⟩
  · rw [if_neg hc] at hu
    simp at hu

/-- Helper: a successful sequential unpack of k u32 values yields exactly
k values, moves the cursor forward by 4k on the same data, and (for
k > 0) never runs past the end of the data. -/
theorem unpackU32s_some (k : Nat) (b b2 : BytesBuffer) (vs : List Nat)
    (h : unpackU32s k b = some (vs, b2)) :
    vs.length = k ∧ b2.data = b.data ∧ b2.pos = b.pos + 4 * k ∧
      (k ≠ 0 → b.pos + 4 * k ≤ b.data.length) := by
  induction k generalizing b vs with
  | zero =>
    rw [unpackU32s] at h
    cases h
    simp
  | succ k ih =>
    rw [unpackU32s] at h
    rcases hu : b.unpackU32 with _ | ⟨v, bmid⟩
    · rw [hu, Option.none_bind] at h
      cases h
    · rw [hu, Option.some_bind] at h
      rcases hr : unpackU32s k bmid with _ | ⟨ws, b3⟩
      · rw [hr] at h
        cases h
      · rw [hr] at h
        simp only [Option.map_some'] at h
        cases h
        obtain ⟨hw, hdata, hpos, hbound⟩ := ih bmid ws hr
        obtain ⟨hmd, hmp, hmb⟩ := unpackU32_some b bmid v hu
        refine ⟨by simp [hw], by rw [hdata, hmd], by rw [hpos, hmp]; omega, ?_⟩
        intro _
        by_cases hk : k = 0
        · subst hk
          omega
        · have hb2 := hbound hk
          rw [hmd] at hb2
          rw [hmp] at hb2
          omega

/-- Helper: sequential unpack decodes a block of packed u32 values back
into the original value list, in order. -/
theorem unpackU32s_decodes (vals : List Nat) (pre : List Nat)
    (hv : ∀ v ∈ vals, v < 4294967296) :
    unpackU32s vals.length
        (BytesBuffer.mk (pre ++ (vals.map u32le).flatten) pre.length) =
      some (vals,
        BytesBuffer.mk (pre ++ (vals.map u32le).flatten) (pre.length + 4 * vals.length)) := by
  induction vals generalizing pre with
  | nil => simp [unpackU32s]
  | cons v vs ih =>
    have hv1 : v < 4294967296 := hv v (by simp)
    have hvs : ∀ w ∈ vs, w < 4294967296 := fun w hw => hv w (by simp [hw])
    simp only [List.map_cons, List.flatten_cons, List.length_cons]
    have hdrop : ((pre ++ (u32le v ++ (vs.map u32le).flatten)).drop pre.length) =
        u32le v ++ (vs.map u32le).flatten := List.drop_left pre _
    have hu4 := unpackBytes_of_drop
      (BytesBuffer.mk (pre ++ (u32le v ++ (vs.map u32le).flatten)) pre.length)
      (u32le v) ((vs.map u32le).flatten) hdrop (by simp [u32le])
    rw [show (u32le v).length = 4 from rfl] at hu4
    have hu : (BytesBuffer.mk (pre ++ (u32le v ++ (vs.map u32le).flatten))
        pre.length).unpackU32 =
        some (v, BytesBuffer.mk (pre ++ (u32le v ++ (vs.map u32le).flatten))
          (pre.length + 4)) := by
      rw [BytesBuffer.unpackU32, hu4]
      simp [leVal_u32le v hv1]
    have ih2 := ih (pre ++ u32le v) hvs
    rw [List.append_assoc] at ih2
    have hpre2 : (pre ++ u32le v).length = pre.length + 4 := by
      simp [u32le]
    rw [hpre2] at ih2
    rw [unpackU32s, hu, Option.some_bind, ih2]
    simp only [Option.map_some']
    have harith : pre.length + 4 + 4 * vs.length = pre.length + 4 * (vs.length + 1) := by
      omega
    rw [harith]

/-- Claim C6: batch read sends all ids packed as consecutive 4-byte
little-endian values in one request; when the response payload is the
packed block of k values it returns exactly those k values in order; and
whenever the response payload is not exactly 4k bytes it fails, never
returning a partial result. -/
theorem batch_read_vsfrs_decodes_in_order :
    (∀ (t : List Nat → List Nat) (ids vals : List Nat) (seq : Nat),
      ids ≠ [] → seq < 32 → vals.length = ids.length →
      (∀ v ∈ vals, v < 4294967296) →
      t (fullRequest [0x2a, 0x08] ((ids.map u32le).flatten) seq) =
        reqHeader [0x2a, 0x08] seq ++ (vals.map u32le).flatten →
      batch_read_vsfrs t ids seq = (Except.ok vals, nextSeq seq)) ∧
    (∀ (t : List Nat → List Nat) (ids p : List Nat) (seq : Nat),
      seq < 32 →
      t (fullRequest [0x2a, 0x08] ((ids.map u32le).flatten) seq) =
        reqHeader [0x2a, 0x08] seq ++ p →
      p.length ≠ 4 * ids.length →
      ∀ (out : List Nat) (s : Nat), batch_read_vsfrs t ids seq ≠ (Except.ok out, s)) := by
  constructor
  · intro t ids vals seq hids hs hlen hv ht
    have h0 : ¬ ids.length = 0 := by
      simpa using hids
    have hexec := execute_ok_of_echo t [0x2a, 0x08] ((ids.map u32le).flatten) seq
      ((vals.map u32le).flatten) rfl hs ht
    have hdec : unpackU32s ids.length
        (BytesBuffer.mk (reqHeader [0x2a, 0x08] seq ++ (vals.map u32le).flatten) 4) =
        some (vals, BytesBuffer.mk
          (reqHeader [0x2a, 0x08] seq ++ (vals.map u32le).flatten) (4 + 4 * ids.length)) := by
      have h := unpackU32s_decodes vals (reqHeader [0x2a, 0x08] seq) hv
      rw [show (reqHeader [0x2a, 0x08] seq).length = 4 from rfl, hlen] at h
      exact h
    have hsz : (BytesBuffer.mk
        (reqHeader [0x2a, 0x08] seq ++ (vals.map u32le).flatten)
        (4 + 4 * ids.length)).size = 0 := by
      have hl : (reqHeader [0x2a, 0x08] seq ++ (vals.map u32le).flatten).length =
          4 + 4 * ids.length := by
        rw [List.length_append, show (reqHeader [0x2a, 0x08] seq).length = 4 from rfl,
          flatten_map_u32le_length, hlen]
      simp [BytesBuffer.size, hl]
    rw [batch_read_vsfrs, if_neg h0, hexec]
    simp only [hdec]
    rw [if_pos hsz]
  · intro t ids p seq hs ht hne out s
    by_cases h0 : ids.length = 0
    · rw [batch_read_vsfrs, if_pos h0]
      simp
    · have hexec := execute_ok_of_echo t [0x2a, 0x08] ((ids.map u32le).flatten) seq p rfl hs ht
      rw [batch_read_vsfrs, if_neg h0, hexec]
      rcases hu : unpackU32s ids.length
          (BytesBuffer.mk (reqHeader [0x2a, 0x08] seq ++ p) 4) with _ | ⟨ret, r2⟩
      · simp only [hu]
        simp
      · obtain ⟨-, hdata, hpos, hbound⟩ := unpackU32s_some ids.length _ r2 ret hu
        have hbig := hbound h0
        have hplen : (reqHeader [0x2a, 0x08] seq ++ p).length = 4 + p.length := by
          rw [List.length_append, show (reqHeader [0x2a, 0x08] seq).length = 4 from rfl]
        have hsz : ¬ r2.size = 0 := by
          rw [BytesBuffer.size, hdata, hpos]
          simp only [hplen] at hbig ⊢
          omega
        simp only [hu]
        rw [if_neg hsz]
        simp

/-- Witness for C6: a batch read of the single register id 2 against a
response packing the single value 7 returns exactly [7]. -/
theorem batch_read_vsfrs_decodes_in_order_witness :
    batch_read_vsfrs
        (fun _ => reqHeader [0x2a, 0x08] 0 ++ (([7] : List Nat).map u32le).flatten) [2] 0 =
      (Except.ok [7], nextSeq 0) :=
  batch_read_vsfrs_decodes_in_order.1
    (fun _ => reqHeader [0x2a, 0x08] 0 ++ (([7] : List Nat).map u32le).flatten)
    [2] [7] 0 (by simp) (by norm_num) rfl (by decide) rfl

/-- Claim C10: batch read of an empty id list always fails on the
precondition assertion, independently of the transport and before any
exchange, and a successful batch read never returns an empty list. -/
theorem batch_read_vsfrs_empty_fails :
    (∀ (t : List Nat → List Nat) (seq : Nat),
      batch_read_vsfrs t [] seq = (Except.error RcError.assertionFailed, seq)) ∧
    (∀ (t : List Nat → List Nat) (ids : List Nat) (seq : Nat) (out : List Nat) (s : Nat),
      batch_read_vsfrs t ids seq = (Except.ok out, s) → out ≠ []) := by
  constructor
  · intro t seq
    rfl
  · intro t ids seq out s h
    by_cases h0 : ids.length = 0
    · rw [batch_read_vsfrs, if_pos h0] at h
      cases h
    · rw [batch_read_vsfrs, if_neg h0] at h
      split at h
      · simp at h
      · split at h
        · simp at h
        · rename_i ret r2 hu
          split at h
          · simp only [Prod.mk.injEq, Except.ok.injEq] at h
            obtain ⟨hout, -⟩ := h
            obtain ⟨hretlen, -, -, -⟩ := unpackU32s_some ids.length _ r2 ret hu
            subst hout
            intro hnil
            rw [hnil] at hretlen
            exact h0 hretlen.symm
          · simp at h

/-- Witness for C10: a concrete empty batch read fails, and a concrete
successful batch read returns a non-empty list. -/
theorem batch_read_vsfrs_empty_fails_witness :
    batch_read_vsfrs (fun _ => []) [] 0 = (Except.error RcError.assertionFailed, 0) ∧
      ([7] : List Nat) ≠ [] :=
  ⟨batch_read_vsfrs_empty_fails.1 (fun _ => []) 0,
    batch_read_vsfrs_empty_fails.2 (fun _ => [0x2a, 0x08, 0, 0x80, 7, 0, 0, 0])
      [2] 0 [7] 1 (by rfl)⟩

/-! ## Claim C9: spectrum format version parsing (radiacode.py lines 81-86)

Strings are modelled as lists of characters. -/

/-- Python str.split with a single-character separator: cut at every
occurrence of the separator, keeping empty segments, so the result is
never empty. -/
def pySplit (sep : Char) : List Char → List (List Char)
  | [] => [[]]
  | c :: rest =>
    if c = sep then [] :: pySplit sep rest
    else
      match pySplit sep rest with
      | [] => [[c]]
      | g :: gs => (c :: g) :: gs

/-- ASCII whitespace stripped by Python int() around the number. -/
def isPySpace (c : Char) : Bool :=
  c = ' ' || c = '\t' || c = '\n' || c = '\r' || c = '\x0b' || c = '\x0c'

/-- Value of a nonempty all-digit string, none otherwise. -/
def digitsVal (s : List Char) : Option Nat :=
  if s ≠ [] ∧ s.all (fun c => c.isDigit) then
    some (s.foldl (fun acc c => 10 * acc + (c.toNat - 48)) 0)
  else none

/-- Python int() on a string: optional surrounding whitespace, an
optional sign, then decimal digits (underscore separators are not
modelled); anything else raises ValueError, modelled as none. -/
def pyInt (s : List Char) : Option Int :=
  match ((s.dropWhile (fun c => isPySpace c)).reverse.dropWhile
      (fun c => isPySpace c)).reverse with
  | '-' :: ds => (digitsVal ds).map fun n => -(n : Int)
  | '+' :: ds => (digitsVal ds).map fun n => (n : Int)
  | ds => (digitsVal ds).map fun n => (n : Int)

/-- The characters of the configuration key SpecFormatVersion. -/
def sfvKey : List Char :=
  ['S', 'p', 'e', 'c', 'F', 'o', 'r', 'm', 'a', 't', 'V', 'e', 'r', 's', 'i', 'o', 'n']

/-- Translation of the loop on lines 82-86: starting from the default 0,
scan the configuration lines in order; at the first line that starts
with SpecFormatVersion, take int of element 1 of the split of the line
on the equals sign and stop (an IndexError when the line holds no equals
sign, or a ValueError from int, is modelled as none); when no line
matches, the default 0 stands. -/
def specVersionOfLines : List (List Char) → Option Int
  | [] => some 0
  | l :: ls =>
    if sfvKey.isPrefixOf l then
      match (pySplit '=' l)[1]? with
      | none => none
      | some seg => pyInt seg
    else specVersionOfLines ls

/-- The value self._spectrum_format_version holds after initialization,
as a function of the configuration text returned by the device. -/
def spectrum_format_version (config : List Char) : Option Int :=
  specVersionOfLines (pySplit '\n' config)

/-- Claim C9: when no configuration line starts with SpecFormatVersion
the negotiated spectrum format version is 0; otherwise it is the integer
parsed from the segment following the first equals sign of the first
such line. -/
theorem spectrum_format_version_characterization (config : List Char) :
    spectrum_format_version config =
      match (pySplit '\n' config).find? (fun l => sfvKey.isPrefixOf l) with
      | none => some 0
      | some l => ((pySplit '=' l)[1]?).bind pyInt := by
  rw [spectrum_format_version]
  induction pySplit '\n' config with
  | nil => rfl
  | cons l ls ih =>
    rw [specVersionOfLines]
    by_cases hc : sfvKey.isPrefixOf l
    · rw [if_pos hc, List.find?_cons_of_pos _ hc]
      cases hseg : (pySplit '=' l)[1]? with
      | none => simp [hseg]
      | some seg => simp [hseg]
    · rw [if_neg hc, List.find?_cons_of_neg _ (by simpa using hc)]
      exact ih

end Radiacode
